import Mathlib

/-!
# Verification of the stock-pulse event ingestion core

Shallow embedding of the event aggregation/dedup engine
(`backend/services/event_aggregator.py`), the derived read models
(`backend/api/daily_summary.py`, `backend/api/stock.py`) and the startup
sweep / job functions (`backend/main.py`, `backend/tasks/scheduler.py`).

Modelling conventions:
* Timestamps are UTC instants measured in integer microseconds since the
  epoch (`Nat`), the resolution of Python `datetime`.  The aggregator's
  naive-to-UTC normalisation (`replace(tzinfo=utc)`) does not change the
  instant's value, so it is the identity in this model.
* Python dict access `ed.get(k)` is `Option`; `ed.get(k, default)` is
  `Option.getD`.  Python string truthiness (`if ticker:`) is `truthy`.
* Numeric SQL columns (`Numeric(10,4)`) are modelled as `ℚ`; `BigInteger`
  as `Int`; `JSONB` payloads as opaque `Option String`.
* The store is the list of rows in insertion order; the `limit(1)` query
  without `ORDER BY` is determinised as the first match in insertion
  order; `uuid4` primary keys are determinised as a fresh counter.
-/

namespace StockPulse

/-- Microseconds in one UTC day. -/
def usecPerDay : Nat := 86400000000

/-- Python string truthiness for an optional string: `None` and `""` are
falsy, every other string is truthy. -/
def truthy : Option String → Bool
  | none => false
  | some s => s ≠ ""

/-- A stored row of the `events` table (`backend/models/event.py`, class
`Event`).  `event_date`, `created_at`, `updated_at` are UTC microsecond
instants. -/
structure Event where
  id : Nat
  ticker : Option String
  event_type : String
  event_date : Nat
  title : String
  description : Option String
  importance : String
  status : String
  eps_estimate : Option ℚ
  eps_actual : Option ℚ
  revenue_estimate : Option Int
  revenue_actual : Option Int
  report_time : Option String
  macro_event_name : Option String
  consensus : Option String
  actual_value : Option String
  previous_value : Option String
  filing_type : Option String
  filing_url : Option String
  ai_summary : Option String
  ai_detail : Option String
  source : Option String
  raw_data : Option String
  created_at : Nat
  updated_at : Nat
  deriving Repr, DecidableEq

/-- A draft record: the `Dict[str, Any]` consumed by `upsert_events`.
A key that is absent (or bound to `None`) is `none`. -/
structure Draft where
  ticker : Option String := none
  event_type : Option String := none
  event_date : Option Nat := none
  title : Option String := none
  description : Option String := none
  importance : Option String := none
  status : Option String := none
  eps_estimate : Option ℚ := none
  eps_actual : Option ℚ := none
  revenue_estimate : Option Int := none
  revenue_actual : Option Int := none
  report_time : Option String := none
  macro_event_name : Option String := none
  consensus : Option String := none
  actual_value : Option String := none
  previous_value : Option String := none
  filing_type : Option String := none
  filing_url : Option String := none
  source : Option String := none
  raw_data : Option String := none
  deriving Repr, DecidableEq

/-- The dedup-match predicate built at `event_aggregator.py:56-76`: same
`event_type` and `title` by exact equality, ticker equal when the draft's
ticker is truthy and `IS NULL` otherwise, and `event_date` within
`[day_start, day_end]` where `day_start` zeroes hour/minute/second/
microsecond of the draft's date and `day_end = day_start.replace(hour=23,
minute=59, second=59)` (microsecond stays 0). -/
def matchesDraft (tkr : Option String) (etype title : String) (t : Nat)
    (r : Event) : Bool :=
  let dayStart := (t / usecPerDay) * usecPerDay
  let dayEnd := dayStart + 86399000000
  r.event_type = etype && r.title = title &&
    (if truthy tkr then r.ticker = tkr else r.ticker = none) &&
    (dayStart ≤ r.event_date && r.event_date ≤ dayEnd)

/-- `_update_existing_event` (`event_aggregator.py:113-125`): fill
`eps_actual`, `revenue_actual`, `actual_value` when the draft has a value
and the stored field is `None`; upgrade `status` to `"completed"` when the
draft says completed and the stored status is not; fill `description`
when the draft's is truthy and the stored one is falsy; always refresh
`updated_at`. -/
def updateExistingEvent (r : Event) (d : Draft) (now : Nat) : Event :=
  let r1 := if d.eps_actual.isSome && r.eps_actual.isNone then
    { r with eps_actual := d.eps_actual } else r
  let r2 := if d.revenue_actual.isSome && r1.revenue_actual.isNone then
    { r1 with revenue_actual := d.revenue_actual } else r1
  let r3 := if d.actual_value.isSome && r2.actual_value.isNone then
    { r2 with actual_value := d.actual_value } else r2
  let r4 := if d.status = some "completed" && !(r3.status = "completed") then
    { r3 with status := "completed" } else r3
  let r5 := if truthy d.description && !(truthy r4.description) then
    { r4 with description := d.description } else r4
  { r5 with updated_at := now }

/-- The row constructed on a dedup miss (`event_aggregator.py:83-104`):
all draft fields stored verbatim, `importance` defaulting to `"medium"`
and `status` to `"upcoming"`, AI fields unset, timestamps set to now,
and a fresh id (`uuid4` determinised as a counter). -/
def newEvent (d : Draft) (t : Nat) (freshId : Nat) (now : Nat) : Event :=
  { id := freshId
    ticker := d.ticker
    event_type := d.event_type.getD ""
    event_date := t
    title := d.title.getD ""
    description := d.description
    importance := d.importance.getD "medium"
    status := d.status.getD "upcoming"
    eps_estimate := d.eps_estimate
    eps_actual := d.eps_actual
    revenue_estimate := d.revenue_estimate
    revenue_actual := d.revenue_actual
    report_time := d.report_time
    macro_event_name := d.macro_event_name
    consensus := d.consensus
    actual_value := d.actual_value
    previous_value := d.previous_value
    filing_type := d.filing_type
    filing_url := d.filing_url
    ai_summary := none
    ai_detail := none
    source := d.source
    raw_data := d.raw_data
    created_at := now
    updated_at := now }

/-- Apply the merge to the first stored row matching the draft, if any
(the `select ... limit(1)` followed by `_update_existing_event`). -/
def applyMerge (d : Draft) (now t : Nat) : List Event → Option (List Event)
  | [] => none
  | r :: rs =>
    if matchesDraft d.ticker (d.event_type.getD "") (d.title.getD "") t r then
      some (updateExistingEvent r d now :: rs)
    else
      (applyMerge d now t rs).map (fun s => r :: s)

/-- One iteration of the loop in `upsert_events` (`event_aggregator.py:
43-106`) on (store, inserted-count): skip when `event_date` is absent,
else merge into the first match or append a new row. -/
def processDraft (now : Nat) (s : List Event × Nat) (d : Draft) :
    List Event × Nat :=
  match d.event_date with
  | none => s
  | some t =>
    match applyMerge d now t s.1 with
    | some store' => (store', s.2)
    | none => (s.1 ++ [newEvent d t s.1.length now], s.2 + 1)

/-- `upsert_events` (`event_aggregator.py:32-110`): fold the per-draft
step over the batch; returns the final store and the `inserted` count,
which is the function's only return value. -/
def upsert_events (now : Nat) (store : List Event) (ds : List Draft) :
    List Event × Nat :=
  ds.foldl (processDraft now) (store, 0)

/-- A sequence of sequential `upsert_events` calls. -/
def ingestSeq (now : Nat) (store : List Event) (bs : List (List Draft)) :
    List Event :=
  bs.foldl (fun s b => (upsert_events now s b).1) store

/-- The spec's dedup key of a stored row: (ticker-or-absent, event_type,
exact title, UTC calendar day of event_date). -/
def dkey (r : Event) : Option String × String × String × Nat :=
  (r.ticker, r.event_type, r.title, r.event_date / usecPerDay)

/-- Dedup-key uniqueness as the spec states it: no two rows share a
dedup key. -/
def dedupUnique (s : List Event) : Prop := (s.map dkey).Nodup

instance : DecidablePred dedupUnique := fun s =>
  inferInstanceAs (Decidable (s.map dkey).Nodup)

/-! ## Field-level characterisation of the merge -/

theorem update_eps_actual (r : Event) (d : Draft) (now : Nat) :
    (updateExistingEvent r d now).eps_actual =
      if d.eps_actual.isSome && r.eps_actual.isNone then d.eps_actual
      else r.eps_actual := by
  simp only [updateExistingEvent]
  split_ifs <;> rfl

theorem update_revenue_actual (r : Event) (d : Draft) (now : Nat) :
    (updateExistingEvent r d now).revenue_actual =
      if d.revenue_actual.isSome && r.revenue_actual.isNone then
        d.revenue_actual
      else r.revenue_actual := by
  simp only [updateExistingEvent]
  split_ifs <;> simp_all

theorem update_actual_value (r : Event) (d : Draft) (now : Nat) :
    (updateExistingEvent r d now).actual_value =
      if d.actual_value.isSome && r.actual_value.isNone then d.actual_value
      else r.actual_value := by
  simp only [updateExistingEvent]
  split_ifs <;> simp_all

theorem update_status (r : Event) (d : Draft) (now : Nat) :
    (updateExistingEvent r d now).status =
      if d.status = some "completed" && !(r.status = "completed") then
        "completed"
      else r.status := by
  simp only [updateExistingEvent]
  split_ifs <;> simp_all

theorem update_description (r : Event) (d : Draft) (now : Nat) :
    (updateExistingEvent r d now).description =
      if truthy d.description && !(truthy r.description) then d.description
      else r.description := by
  simp only [updateExistingEvent]
  split_ifs <;> simp_all

theorem update_updated_at (r : Event) (d : Draft) (now : Nat) :
    (updateExistingEvent r d now).updated_at = now := by
  simp only [updateExistingEvent]

/-- A convenient all-zero row for concrete test stores. -/
def baseEvent : Event :=
  { id := 0
    ticker := none
    event_type := ""
    event_date := 0
    title := ""
    description := none
    importance := "medium"
    status := "upcoming"
    eps_estimate := none
    eps_actual := none
    revenue_estimate := none
    revenue_actual := none
    report_time := none
    macro_event_name := none
    consensus := none
    actual_value := none
    previous_value := none
    filing_type := none
    filing_url := none
    ai_summary := none
    ai_detail := none
    source := none
    raw_data := none
    created_at := 0
    updated_at := 0 }

/-- A match never succeeds against the empty list. -/
theorem applyMerge_eq_none_iff (d : Draft) (now t : Nat) (s : List Event) :
    applyMerge d now t s = none ↔
      ∀ r ∈ s,
        matchesDraft d.ticker (d.event_type.getD "") (d.title.getD "") t r
          = false := by
  induction s with
  | nil => simp [applyMerge]
  | cons r rs ih =>
    cases hm :
        matchesDraft d.ticker (d.event_type.getD "") (d.title.getD "") t r with
    | true => simp [applyMerge, hm]
    | false => simp [applyMerge, hm, Option.map_eq_none', ih]

/-- C2 counterexample row: a stored event whose `description` is present
but empty. -/
def c2Row : Event :=
  { baseEvent with
    ticker := some "AAPL"
    event_type := "earnings"
    title := "Q1"
    description := some "" }

/-- C2 counterexample draft carrying a non-empty description. -/
def c2Draft : Draft := { description := some "details" }

/-- C2 is falsified at a concrete input: the stored `description` is set
(to the empty string, hence not NULL) and the merge nevertheless
overwrites it with the draft's value, because the code tests Python
truthiness (`if ed.get("description") and not event.description`) rather
than `is None`. -/
theorem c2_counterexample :
    c2Row.description ≠ none ∧
    (updateExistingEvent c2Row c2Draft 5).description ≠ c2Row.description := by
  decide

/-- C2 (amended): for `eps_actual`, `revenue_actual` and `actual_value`
the merge copies the draft's value exactly when the stored field is NULL
and never overwrites a populated value (a stored `eps_actual = X` stays
`X`); for `description` the merge copies the draft's value exactly when
the draft's description is non-empty and the stored one is NULL or
empty, so a stored non-empty description is never overwritten but a
stored empty-string description may be. -/
theorem c2_fill_only_merge (d : Draft) (r : Event) (now : Nat) :
    ((updateExistingEvent r d now).eps_actual =
      if d.eps_actual.isSome && r.eps_actual.isNone then d.eps_actual
      else r.eps_actual)
  ∧ (r.eps_actual.isSome →
      (updateExistingEvent r d now).eps_actual = r.eps_actual)
  ∧ ((updateExistingEvent r d now).revenue_actual =
      if d.revenue_actual.isSome && r.revenue_actual.isNone then
        d.revenue_actual
      else r.revenue_actual)
  ∧ (r.revenue_actual.isSome →
      (updateExistingEvent r d now).revenue_actual = r.revenue_actual)
  ∧ ((updateExistingEvent r d now).actual_value =
      if d.actual_value.isSome && r.actual_value.isNone then d.actual_value
      else r.actual_value)
  ∧ (r.actual_value.isSome →
      (updateExistingEvent r d now).actual_value = r.actual_value)
  ∧ ((updateExistingEvent r d now).description =
      if truthy d.description && !(truthy r.description) then d.description
      else r.description)
  ∧ (∀ s, r.description = some s → s ≠ "" →
      (updateExistingEvent r d now).description = r.description) := by
  refine ⟨update_eps_actual r d now, ?_, update_revenue_actual r d now, ?_,
    update_actual_value r d now, ?_, update_description r d now, ?_⟩
  · intro h
    rw [update_eps_actual]
    have hn : r.eps_actual.isNone = false := by
      cases hv : r.eps_actual <;> simp_all
    simp [hn]
  · intro h
    rw [update_revenue_actual]
    have hn : r.revenue_actual.isNone = false := by
      cases hv : r.revenue_actual <;> simp_all
    simp [hn]
  · intro h
    rw [update_actual_value]
    have hn : r.actual_value.isNone = false := by
      cases hv : r.actual_value <;> simp_all
    simp [hn]
  · intro s hs hne
    rw [update_description]
    have ht : truthy r.description = true := by simp [truthy, hs, hne]
    simp [ht]

/-- Row with `eps_actual` already populated, for the C2 witness. -/
def c2RowEps : Event := { baseEvent with eps_actual := some 2 }

/-- Draft carrying a different `eps_actual`, for the C2 witness. -/
def c2DraftEps : Draft := { eps_actual := some 3 }

/-- C2 witness: a stored `eps_actual = 2` survives a merge of a draft
with `eps_actual = 3`. -/
theorem c2_fill_only_merge_witness :
    (updateExistingEvent c2RowEps c2DraftEps 7).eps_actual = some 2 := by
  have h := (c2_fill_only_merge c2DraftEps c2RowEps 7).2.1 (by decide)
  simpa [c2RowEps] using h

/-- C4: the merge changes `status` only by setting it to `"completed"`,
and only when the draft's status is `"completed"` and the stored status
is not already `"completed"`; a stored `"completed"` status is never
changed, in particular never back to `"upcoming"`. -/
theorem c4_status_monotonic (d : Draft) (r : Event) (now : Nat) :
    ((updateExistingEvent r d now).status ≠ r.status →
      d.status = some "completed" ∧ r.status ≠ "completed" ∧
        (updateExistingEvent r d now).status = "completed")
  ∧ (r.status = "completed" →
      (updateExistingEvent r d now).status = "completed")
  ∧ ((updateExistingEvent r d now).status = "upcoming" →
      r.status = "upcoming") := by
  refine ⟨?_, ?_, ?_⟩ <;> rw [update_status] <;> split_ifs with hb <;>
    simp_all

/-- Stored completed row for the C4 witness. -/
def c4Row : Event := { baseEvent with status := "completed" }

/-- Draft claiming the event is upcoming again, for the C4 witness. -/
def c4Draft : Draft := { status := some "upcoming" }

/-- C4 witness: merging an `"upcoming"` draft into a `"completed"` row
leaves the status `"completed"`. -/
theorem c4_status_monotonic_witness :
    (updateExistingEvent c4Row c4Draft 3).status = "completed" :=
  (c4_status_monotonic c4Draft c4Row 3).2.1 rfl

/-- C9: the merge leaves every field other than `eps_actual`,
`revenue_actual`, `actual_value`, `status`, `description` and
`updated_at` unchanged, and sets `updated_at` to the merge time on every
merge, including one in which no other field changed. -/
theorem c9_merge_frame (d : Draft) (r : Event) (now : Nat) :
    (updateExistingEvent r d now).id = r.id
  ∧ (updateExistingEvent r d now).ticker = r.ticker
  ∧ (updateExistingEvent r d now).event_type = r.event_type
  ∧ (updateExistingEvent r d now).event_date = r.event_date
  ∧ (updateExistingEvent r d now).title = r.title
  ∧ (updateExistingEvent r d now).importance = r.importance
  ∧ (updateExistingEvent r d now).eps_estimate = r.eps_estimate
  ∧ (updateExistingEvent r d now).revenue_estimate = r.revenue_estimate
  ∧ (updateExistingEvent r d now).report_time = r.report_time
  ∧ (updateExistingEvent r d now).macro_event_name = r.macro_event_name
  ∧ (updateExistingEvent r d now).consensus = r.consensus
  ∧ (updateExistingEvent r d now).previous_value = r.previous_value
  ∧ (updateExistingEvent r d now).filing_type = r.filing_type
  ∧ (updateExistingEvent r d now).filing_url = r.filing_url
  ∧ (updateExistingEvent r d now).ai_summary = r.ai_summary
  ∧ (updateExistingEvent r d now).ai_detail = r.ai_detail
  ∧ (updateExistingEvent r d now).source = r.source
  ∧ (updateExistingEvent r d now).raw_data = r.raw_data
  ∧ (updateExistingEvent r d now).created_at = r.created_at
  ∧ (updateExistingEvent r d now).updated_at = now := by
  simp only [updateExistingEvent]
  split_ifs <;> simp_all

/-- C10: a draft whose `ticker` is the empty string is falsy in Python,
so the dedup query matches only rows with a NULL ticker; yet the insert
path stores the empty string verbatim, so the inserted row can never be
found by a later match and each re-ingestion of the draft appends one
more row (as long as no NULL-ticker row matches the draft's key). -/
theorem c10_empty_ticker_edge :
    (∀ et ti t r, matchesDraft (some "") et ti t r = true → r.ticker = none)
  ∧ (∀ d t fid now, (newEvent d t fid now).ticker = d.ticker)
  ∧ (∀ now S (d : Draft) t, d.ticker = some "" → d.event_date = some t →
      (∀ r ∈ S,
        matchesDraft d.ticker (d.event_type.getD "") (d.title.getD "") t r
          = false) →
      (upsert_events now S [d]).1.length = S.length + 1 ∧
      ∀ r ∈ (upsert_events now S [d]).1,
        matchesDraft d.ticker (d.event_type.getD "") (d.title.getD "") t r
          = false) := by
  have hmatch : ∀ et ti t r,
      matchesDraft (some "") et ti t r = true → r.ticker = none := by
    intro et ti t r h
    simp [matchesDraft, truthy] at h
    tauto
  refine ⟨hmatch, fun d t fid now => rfl, ?_⟩
  intro now S d t htk hdate hnone
  have hmerge : applyMerge d now t S = none :=
    (applyMerge_eq_none_iff d now t S).mpr hnone
  have hstep : upsert_events now S [d] =
      (S ++ [newEvent d t S.length now], 1) := by
    simp [upsert_events, processDraft, hdate, hmerge]
  refine ⟨by simp [hstep], ?_⟩
  intro r hr
  rw [hstep] at hr
  rcases List.mem_append.mp hr with hr | hr
  · exact hnone r hr
  · have hr' : r = newEvent d t S.length now := by simpa using hr
    subst hr'
    cases hfull :
        matchesDraft d.ticker (d.event_type.getD "") (d.title.getD "") t
          (newEvent d t S.length now) with
    | false => rfl
    | true =>
      exfalso
      have hn : (newEvent d t S.length now).ticker = none := by
        rw [htk] at hfull
        exact hmatch _ _ _ _ hfull
      simp [newEvent, htk] at hn

/-- Concrete empty-ticker draft for the C10 witness. -/
def c10Draft : Draft :=
  { ticker := some "", event_type := some "earnings",
    event_date := some 0, title := some "T" }

/-- C10 witness: ingesting the empty-ticker draft into the empty store
appends one row, and that row is again invisible to the dedup match. -/
theorem c10_empty_ticker_edge_witness :
    (upsert_events 0 [] [c10Draft]).1.length =
      List.length ([] : List Event) + 1 ∧
    ∀ r ∈ (upsert_events 0 [] [c10Draft]).1,
      matchesDraft c10Draft.ticker (c10Draft.event_type.getD "")
        (c10Draft.title.getD "") 0 r = false :=
  c10_empty_ticker_edge.2.2 0 [] c10Draft 0 rfl rfl (by simp)

/-! ## C1: dedup-key uniqueness -/

/-- The fields of a stored row that the dedup match reads and that the
merge never writes. -/
def keyProj (r : Event) : Option String × String × String × Nat :=
  (r.ticker, r.event_type, r.title, r.event_date)

/-- Rows whose dedup behaviour is regular: the ticker is not the empty
string (which Python truthiness conflates with NULL) and the UTC
time-of-day is inside the query window `[00:00:00.000000,
23:59:59.000000]` (rows in the last second of a day with a non-zero
microsecond part escape the window). -/
def goodRecB (r : Event) : Bool :=
  r.ticker ≠ some "" && r.event_date % usecPerDay ≤ 86399000000

/-- The invariant the engine actually maintains: regular rows have
pairwise distinct dedup keys. -/
def amendedInv (s : List Event) : Prop :=
  ((s.filter goodRecB).map dkey).Nodup

instance : DecidablePred amendedInv := fun s =>
  inferInstanceAs (Decidable ((s.filter goodRecB).map dkey).Nodup)

theorem update_keyProj (r : Event) (d : Draft) (now : Nat) :
    keyProj (updateExistingEvent r d now) = keyProj r := by
  simp only [keyProj, updateExistingEvent]
  split_ifs <;> rfl

theorem applyMerge_map_keyProj (d : Draft) (now t : Nat) (s s' : List Event)
    (h : applyMerge d now t s = some s') :
    s'.map keyProj = s.map keyProj := by
  induction s generalizing s' with
  | nil => simp [applyMerge] at h
  | cons r rs ih =>
    cases hm :
        matchesDraft d.ticker (d.event_type.getD "") (d.title.getD "") t r with
    | true =>
      simp only [applyMerge, hm, if_pos] at h
      obtain rfl := Option.some.inj h
      simp [update_keyProj]
    | false =>
      have h' :
          Option.map (fun s => r :: s) (applyMerge d now t rs) = some s' := by
        simpa [applyMerge, hm] using h
      cases hrec : applyMerge d now t rs with
      | none =>
        rw [hrec] at h'
        simp at h'
      | some s'' =>
        rw [hrec] at h'
        simp only [Option.map_some'] at h'
        obtain rfl := Option.some.inj h'
        simp [ih s'' hrec]

theorem goodRecB_eq_of_keyProj {a b : Event} (h : keyProj a = keyProj b) :
    goodRecB a = goodRecB b := by
  simp only [keyProj, Prod.mk.injEq] at h
  simp [goodRecB, h.1, h.2.2.2]

theorem dkey_eq_of_keyProj {a b : Event} (h : keyProj a = keyProj b) :
    dkey a = dkey b := by
  simp only [keyProj, Prod.mk.injEq] at h
  simp [dkey, h.1, h.2.1, h.2.2.1, h.2.2.2]

theorem filter_map_dkey_eq {s s' : List Event}
    (h : s.map keyProj = s'.map keyProj) :
    (s.filter goodRecB).map dkey = (s'.filter goodRecB).map dkey := by
  induction s generalizing s' with
  | nil =>
    cases s' with
    | nil => rfl
    | cons b bs => simp at h
  | cons a as ih =>
    cases s' with
    | nil => simp at h
    | cons b bs =>
      simp only [List.map_cons, List.cons.injEq] at h
      obtain ⟨hab, htail⟩ := h
      rw [List.filter_cons, List.filter_cons, goodRecB_eq_of_keyProj hab]
      cases hg : goodRecB b with
      | true => simp [dkey_eq_of_keyProj hab, ih htail]
      | false => simp [ih htail]

theorem amendedInv_of_keyProj {s s' : List Event}
    (h : s.map keyProj = s'.map keyProj) (hs : amendedInv s) :
    amendedInv s' := by
  unfold amendedInv at hs ⊢
  rwa [← filter_map_dkey_eq h]

/-- A regular row carrying the dedup key of a freshly inserted row is in
fact matched by the draft that produced that row. -/
theorem matches_of_dkey_newEvent (d : Draft) (t fid now : Nat) (r : Event)
    (hgr : goodRecB r = true)
    (hge : goodRecB (newEvent d t fid now) = true)
    (hk : dkey r = dkey (newEvent d t fid now)) :
    matchesDraft d.ticker (d.event_type.getD "") (d.title.getD "") t r
      = true := by
  simp only [dkey, newEvent, Prod.mk.injEq] at hk
  simp only [goodRecB, newEvent, Bool.and_eq_true, decide_eq_true_eq] at hgr hge
  simp only [matchesDraft, Bool.and_eq_true, decide_eq_true_eq]
  refine ⟨⟨⟨hk.2.1, hk.2.2.1⟩, ?_⟩, ?_⟩
  · cases htr : truthy d.ticker with
    | true => simp [hk.1]
    | false =>
      have hdn : d.ticker = none := by
        cases hdt : d.ticker with
        | none => rfl
        | some s =>
          exfalso
          rw [hdt] at htr hge
          simp [truthy] at htr
          subst htr
          simp at hge
      simp [hk.1, hdn]
  · have hmod := hgr.2
    have hdiv := hk.2.2.2
    have hsplit := Nat.div_add_mod r.event_date usecPerDay
    simp only [usecPerDay] at hmod hdiv hsplit ⊢
    omega

theorem processDraft_preserves_amendedInv (now : Nat)
    (p : List Event × Nat) (d : Draft) (h : amendedInv p.1) :
    amendedInv (processDraft now p d).1 := by
  cases hd : d.event_date with
  | none => simpa [processDraft, hd] using h
  | some t =>
    cases ha : applyMerge d now t p.1 with
    | some s' =>
      simp only [processDraft, hd, ha]
      exact amendedInv_of_keyProj
        (applyMerge_map_keyProj d now t p.1 s' ha).symm h
    | none =>
      simp only [processDraft, hd, ha]
      unfold amendedInv at h ⊢
      rw [List.filter_append, List.map_append]
      cases hg : goodRecB (newEvent d t p.1.length now) with
      | false => simpa [hg]
      | true =>
        simp only [List.filter_cons, hg, List.filter_nil, if_pos,
          List.map_cons, List.map_nil]
        rw [List.nodup_append]
        refine ⟨h, by simp, ?_⟩
        intro k hk hk'
        simp only [List.mem_singleton] at hk'
        subst hk'
        simp only [List.mem_map] at hk
        obtain ⟨r, hr, hrk⟩ := hk
        simp only [List.mem_filter] at hr
        have hmatch := matches_of_dkey_newEvent d t p.1.length now r hr.2 hg hrk
        have hnone := (applyMerge_eq_none_iff d now t p.1).mp ha r hr.1
        rw [hmatch] at hnone
        exact Bool.true_eq_false.mp hnone

/-- C1 counterexample drafts: an empty-string ticker draft and a draft
whose event_date has a non-zero microsecond part in the last second of
its UTC day. -/
def c1DraftEmpty : Draft :=
  { ticker := some "", event_type := some "earnings",
    event_date := some 0, title := some "T" }

/-- Second C1 counterexample draft (23:59:59.500000 UTC of day 0). -/
def c1DraftLate : Draft :=
  { ticker := some "AAPL", event_type := some "earnings",
    event_date := some 86399500000, title := some "Q" }

/-- C1 is falsified at a concrete input: starting from the empty store
(where dedup-key uniqueness holds), a single `upsert_events` call leaves
two pairs of rows with identical dedup keys — one pair inserted twice
because an empty-string-ticker row is never matched, one pair inserted
twice because a 23:59:59.5 event_date lies outside the
`[00:00:00, 23:59:59.000000]` match window of its own calendar day. -/
theorem c1_counterexample :
    dedupUnique ([] : List Event) ∧
    ¬ dedupUnique (ingestSeq 0 []
      [[c1DraftEmpty, c1DraftEmpty, c1DraftLate, c1DraftLate]]) := by
  decide

/-- C1 (amended): after any sequence of sequential `upsert_events`
calls, dedup-key uniqueness holds among the regular rows — those whose
ticker is not the empty string and whose event_date time-of-day lies in
the match window `[00:00:00.000000, 23:59:59.000000]` of its UTC day —
provided it held of the regular rows of the initial store.  (Rows with
an empty-string ticker, and rows dated inside the final second of a day
with a non-zero microsecond part, can be duplicated without bound.) -/
theorem c1_dedup_key_uniqueness (now : Nat) (S : List Event)
    (Bs : List (List Draft)) (h : amendedInv S) :
    amendedInv (ingestSeq now S Bs) := by
  induction Bs generalizing S with
  | nil => simpa [ingestSeq] using h
  | cons B Bs ih =>
    simp only [ingestSeq, List.foldl_cons]
    apply ih
    have hB : ∀ (p : List Event × Nat), amendedInv p.1 →
        amendedInv (B.foldl (processDraft now) p).1 := by
      intro p hp
      induction B generalizing p with
      | nil => simpa using hp
      | cons d ds ihd =>
        simp only [List.foldl_cons]
        exact ihd _ (processDraft_preserves_amendedInv now p d hp)
    exact hB (S, 0) h

/-- A regular draft for the C1 witness. -/
def c1GoodDraft : Draft :=
  { ticker := some "MSFT", event_type := some "earnings",
    event_date := some 75600000000, title := some "MSFT Earnings" }

/-- C1 witness: ingesting a batch sequence from the empty store keeps
the (amended) invariant. -/
theorem c1_dedup_key_uniqueness_witness :
    amendedInv (ingestSeq 0 [] [[c1GoodDraft], [c1GoodDraft]]) :=
  c1_dedup_key_uniqueness 0 [] [[c1GoodDraft], [c1GoodDraft]] (by decide)

/-! ## C3: idempotence of ingestion -/

/-- Forget `updated_at`, the only field the merge refreshes even when
nothing else changed. -/
def stripUpdatedAt (r : Event) : Event := { r with updated_at := 0 }

/-- `r` already holds everything draft `d` could contribute through the
fill-only merge, so merging `d` into `r` changes only `updated_at`. -/
def absorbs (d : Draft) (r : Event) : Prop :=
  (d.eps_actual.isSome → r.eps_actual.isSome) ∧
  (d.revenue_actual.isSome → r.revenue_actual.isSome) ∧
  (d.actual_value.isSome → r.actual_value.isSome) ∧
  (d.status = some "completed" → r.status = "completed") ∧
  (truthy d.description = true → truthy r.description = true)

/-- `r'` is at least as filled as `r`: the merge only moves rows up this
order. -/
def fieldsLE (r r' : Event) : Prop :=
  (r.eps_actual.isSome → r'.eps_actual.isSome) ∧
  (r.revenue_actual.isSome → r'.revenue_actual.isSome) ∧
  (r.actual_value.isSome → r'.actual_value.isSome) ∧
  (r.status = "completed" → r'.status = "completed") ∧
  (truthy r.description = true → truthy r'.description = true)

/-- Processing draft `d` (with date `t`) against this store would merge
into a row that absorbs it: the first matching row absorbs `d`. -/
def satB (d : Draft) (t : Nat) : List Event → Prop
  | [] => False
  | r :: rs =>
    if matchesDraft d.ticker (d.event_type.getD "") (d.title.getD "") t r then
      absorbs d r
    else satB d t rs

/-- `satB` for whichever date the draft carries. -/
def sat (d : Draft) (S : List Event) : Prop :=
  ∀ t, d.event_date = some t → satB d t S

/-- Drafts outside the two dedup blind spots: ticker not the empty
string, and (when a date is present) time-of-day inside the match
window. -/
def goodDraft (d : Draft) : Prop :=
  d.ticker ≠ some "" ∧ d.event_date.getD 0 % usecPerDay ≤ 86399000000

instance : DecidablePred goodDraft := fun d =>
  inferInstanceAs (Decidable (_ ∧ _))

theorem fieldsLE_update (r : Event) (d : Draft) (now : Nat) :
    fieldsLE r (updateExistingEvent r d now) := by
  refine ⟨?_, ?_, ?_, ?_, ?_⟩
  · rw [update_eps_actual]
    split_ifs with hc
    · intro _
      exact (Bool.and_eq_true _ _ ▸ hc).1
    · exact id
  · rw [update_revenue_actual]
    split_ifs with hc
    · intro _
      exact (Bool.and_eq_true _ _ ▸ hc).1
    · exact id
  · rw [update_actual_value]
    split_ifs with hc
    · intro _
      exact (Bool.and_eq_true _ _ ▸ hc).1
    · exact id
  · rw [update_status]
    intro hr
    split_ifs with hc
    · rfl
    · exact hr
  · rw [update_description]
    intro hr
    split_ifs with hc
    · rw [Bool.and_eq_true] at hc
      exact absurd hr (by simpa using hc.2)
    · exact hr

theorem absorbs_of_fieldsLE {d : Draft} {r r' : Event}
    (h : absorbs d r) (hle : fieldsLE r r') : absorbs d r' :=
  ⟨fun x => hle.1 (h.1 x), fun x => hle.2.1 (h.2.1 x),
   fun x => hle.2.2.1 (h.2.2.1 x), fun x => hle.2.2.2.1 (h.2.2.2.1 x),
   fun x => hle.2.2.2.2 (h.2.2.2.2 x)⟩

theorem absorbs_update (d : Draft) (r : Event) (now : Nat) :
    absorbs d (updateExistingEvent r d now) := by
  refine ⟨?_, ?_, ?_, ?_, ?_⟩
  · rw [update_eps_actual]
    intro hd
    split_ifs with hc
    · exact hd
    · simp only [hd, Bool.true_and, Bool.not_eq_true] at hc
      cases hr : r.eps_actual with
      | none => rw [hr] at hc; simp at hc
      | some v => simp
  · rw [update_revenue_actual]
    intro hd
    split_ifs with hc
    · exact hd
    · simp only [hd, Bool.true_and, Bool.not_eq_true] at hc
      cases hr : r.revenue_actual with
      | none => rw [hr] at hc; simp at hc
      | some v => simp
  · rw [update_actual_value]
    intro hd
    split_ifs with hc
    · exact hd
    · simp only [hd, Bool.true_and, Bool.not_eq_true] at hc
      cases hr : r.actual_value with
      | none => rw [hr] at hc; simp at hc
      | some v => simp
  · rw [update_status]
    intro hd
    split_ifs with hc
    · rfl
    · simp [hd] at hc
      exact hc
  · rw [update_description]
    intro hd
    split_ifs with hc
    · exact hd
    · simp only [hd, Bool.true_and, Bool.not_eq_true, Bool.not_eq_false]
        at hc
      simpa using hc

theorem absorbs_newEvent (d : Draft) (t fid now : Nat) :
    absorbs d (newEvent d t fid now) := by
  refine ⟨fun h => h, fun h => h, fun h => h, ?_, fun h => h⟩
  intro hd
  simp [newEvent, hd]

/-- The merge of an absorbed draft only refreshes `updated_at`. -/
theorem update_of_absorbs {d : Draft} {r : Event} (now : Nat)
    (h : absorbs d r) :
    updateExistingEvent r d now = { r with updated_at := now } := by
  obtain ⟨h1, h2, h3, h4, h5⟩ := h
  have c1 : (d.eps_actual.isSome && r.eps_actual.isNone) = false := by
    cases hd : d.eps_actual with
    | none => simp
    | some v =>
      have := h1 (by simp [hd])
      cases hr : r.eps_actual with
      | none => rw [hr] at this; simp at this
      | some w => simp [hr]
  have c2 : (d.revenue_actual.isSome && r.revenue_actual.isNone) = false := by
    cases hd : d.revenue_actual with
    | none => simp
    | some v =>
      have := h2 (by simp [hd])
      cases hr : r.revenue_actual with
      | none => rw [hr] at this; simp at this
      | some w => simp [hr]
  have c3 : (d.actual_value.isSome && r.actual_value.isNone) = false := by
    cases hd : d.actual_value with
    | none => simp
    | some v =>
      have := h3 (by simp [hd])
      cases hr : r.actual_value with
      | none => rw [hr] at this; simp at this
      | some w => simp [hr]
  have c4 : (decide (d.status = some "completed") &&
      !decide (r.status = "completed")) = false := by
    by_cases hs : d.status = some "completed"
    · simp [hs, h4 hs]
    · simp [hs]
  have c5 : (truthy d.description && !truthy r.description) = false := by
    cases ht : truthy d.description with
    | false => simp
    | true => simp [h5 ht]
  simp only [updateExistingEvent, c1, c2, c3, c4, c5, Bool.false_eq_true,
    if_false]

theorem matches_congr_keyProj {a b : Event} (h : keyProj a = keyProj b)
    (tk : Option String) (et ti : String) (t : Nat) :
    matchesDraft tk et ti t a = matchesDraft tk et ti t b := by
  simp only [keyProj, Prod.mk.injEq] at h
  simp only [matchesDraft, h.1, h.2.1, h.2.2.1, h.2.2.2]

/-- The fields the merge may write, other than `updated_at`. -/
def mergeFields (r : Event) :
    Option ℚ × Option Int × Option String × String × Option String :=
  (r.eps_actual, r.revenue_actual, r.actual_value, r.status, r.description)

theorem keyProj_of_strip {a b : Event}
    (h : stripUpdatedAt a = stripUpdatedAt b) : keyProj a = keyProj b := by
  have h0 := congrArg keyProj h
  exact h0

theorem absorbs_congr_strip {a b : Event}
    (h : stripUpdatedAt a = stripUpdatedAt b) (d : Draft) :
    absorbs d a ↔ absorbs d b := by
  have h0 := congrArg mergeFields h
  have h1 : mergeFields a = mergeFields b := h0
  simp only [mergeFields, Prod.mk.injEq] at h1
  simp [absorbs, h1.1, h1.2.1, h1.2.2.1, h1.2.2.2.1, h1.2.2.2.2]

theorem satB_congr_strip {d : Draft} {t : Nat} :
    ∀ {S T : List Event},
      S.map stripUpdatedAt = T.map stripUpdatedAt → satB d t S → satB d t T := by
  intro S
  induction S with
  | nil =>
    intro T h hs
    exact absurd hs (by simp [satB])
  | cons a as ih =>
    intro T h hs
    cases T with
    | nil => simp at h
    | cons b bs =>
      simp only [List.map_cons, List.cons.injEq] at h
      obtain ⟨hab, htail⟩ := h
      have hk := keyProj_of_strip hab
      cases hm :
          matchesDraft d.ticker (d.event_type.getD "") (d.title.getD "") t a
          with
      | true =>
        have hmb :
            matchesDraft d.ticker (d.event_type.getD "") (d.title.getD "") t b
              = true := by
          rw [← matches_congr_keyProj hk]
          exact hm
        simp only [satB, hm, if_pos] at hs
        simp only [satB, hmb, if_pos]
        exact (absorbs_congr_strip hab d).mp hs
      | false =>
        have hmb :
            matchesDraft d.ticker (d.event_type.getD "") (d.title.getD "") t b
              = false := by
          rw [← matches_congr_keyProj hk]
          exact hm
        simp only [satB, hm, Bool.false_eq_true, if_false] at hs
        simp only [satB, hmb, Bool.false_eq_true, if_false]
        exact ih htail hs

theorem satB_after_merge {d : Draft} {t : Nat} {d' : Draft} {now t' : Nat} :
    ∀ {S S' : List Event},
      satB d t S → applyMerge d' now t' S = some S' → satB d t S' := by
  intro S
  induction S with
  | nil =>
    intro S' hs h
    simp [applyMerge] at h
  | cons r rs ih =>
    intro S' hs h
    cases hm' :
        matchesDraft d'.ticker (d'.event_type.getD "") (d'.title.getD "") t' r
        with
    | true =>
      simp only [applyMerge, hm', if_pos] at h
      obtain rfl := Option.some.inj h
      have hk := update_keyProj r d' now
      cases hm :
          matchesDraft d.ticker (d.event_type.getD "") (d.title.getD "") t r
          with
      | true =>
        have hmu :
            matchesDraft d.ticker (d.event_type.getD "") (d.title.getD "") t
              (updateExistingEvent r d' now) = true := by
          rw [matches_congr_keyProj hk]
          exact hm
        simp only [satB, hm, if_pos] at hs
        simp only [satB, hmu, if_pos]
        exact absorbs_of_fieldsLE hs (fieldsLE_update r d' now)
      | false =>
        have hmu :
            matchesDraft d.ticker (d.event_type.getD "") (d.title.getD "") t
              (updateExistingEvent r d' now) = false := by
          rw [matches_congr_keyProj hk]
          exact hm
        simp only [satB, hm, Bool.false_eq_true, if_false] at hs
        simp only [satB, hmu, Bool.false_eq_true, if_false]
        exact hs
    | false =>
      have h' :
          Option.map (fun s => r :: s) (applyMerge d' now t' rs) = some S' := by
        simpa [applyMerge, hm'] using h
      cases hrec : applyMerge d' now t' rs with
      | none =>
        rw [hrec] at h'
        simp at h'
      | some s'' =>
        rw [hrec] at h'
        simp only [Option.map_some'] at h'
        obtain rfl := Option.some.inj h'
        cases hm :
            matchesDraft d.ticker (d.event_type.getD "") (d.title.getD "") t r
            with
        | true =>
          simp only [satB, hm, if_pos] at hs ⊢
          exact hs
        | false =>
          simp only [satB, hm, Bool.false_eq_true, if_false] at hs ⊢
          exact ih hs hrec

theorem satB_append {d : Draft} {t : Nat} {e : Event} :
    ∀ {S : List Event}, satB d t S → satB d t (S ++ [e]) := by
  intro S
  induction S with
  | nil =>
    intro hs
    exact absurd hs (by simp [satB])
  | cons r rs ih =>
    intro hs
    cases hm :
        matchesDraft d.ticker (d.event_type.getD "") (d.title.getD "") t r
        with
    | true =>
      simp only [satB, hm, if_pos] at hs
      simp only [List.cons_append, satB, hm, if_pos]
      exact hs
    | false =>
      simp only [satB, hm, Bool.false_eq_true, if_false] at hs
      simp only [List.cons_append, satB, hm, Bool.false_eq_true, if_false]
      exact ih hs

theorem satB_insert {d : Draft} {t now : Nat} {e : Event} :
    ∀ {S : List Event}, applyMerge d now t S = none →
      matchesDraft d.ticker (d.event_type.getD "") (d.title.getD "") t e
        = true →
      absorbs d e → satB d t (S ++ [e]) := by
  intro S
  induction S with
  | nil =>
    intro _ hme habs
    simpa [satB, hme] using habs
  | cons r rs ih =>
    intro h hme habs
    have hall := (applyMerge_eq_none_iff d now t (r :: rs)).mp h
    have hmr := hall r (List.mem_cons_self _ _)
    have htail : applyMerge d now t rs = none :=
      (applyMerge_eq_none_iff d now t rs).mpr
        (fun x hx => hall x (List.mem_cons_of_mem _ hx))
    simp only [List.cons_append, satB, hmr, Bool.false_eq_true, if_false]
    exact ih htail hme habs

theorem satB_of_applyMerge {d : Draft} {now t : Nat} :
    ∀ {S S' : List Event}, applyMerge d now t S = some S' → satB d t S' := by
  intro S
  induction S with
  | nil =>
    intro S' h
    simp [applyMerge] at h
  | cons r rs ih =>
    intro S' h
    cases hm :
        matchesDraft d.ticker (d.event_type.getD "") (d.title.getD "") t r
        with
    | true =>
      simp only [applyMerge, hm, if_pos] at h
      obtain rfl := Option.some.inj h
      have hmu :
          matchesDraft d.ticker (d.event_type.getD "") (d.title.getD "") t
            (updateExistingEvent r d now) = true := by
        rw [matches_congr_keyProj (update_keyProj r d now)]
        exact hm
      simp only [satB, hmu, if_pos]
      exact absorbs_update d r now
    | false =>
      have h' :
          Option.map (fun s => r :: s) (applyMerge d now t rs) = some S' := by
        simpa [applyMerge, hm] using h
      cases hrec : applyMerge d now t rs with
      | none =>
        rw [hrec] at h'
        simp at h'
      | some s'' =>
        rw [hrec] at h'
        simp only [Option.map_some'] at h'
        obtain rfl := Option.some.inj h'
        simp only [satB, hm, Bool.false_eq_true, if_false]
        exact ih hrec

theorem matches_newEvent_self (d : Draft) (t fid now : Nat)
    (htk : d.ticker ≠ some "") (hw : t % usecPerDay ≤ 86399000000) :
    matchesDraft d.ticker (d.event_type.getD "") (d.title.getD "") t
      (newEvent d t fid now) = true := by
  simp only [matchesDraft, newEvent, Bool.and_eq_true, decide_eq_true_eq]
  refine ⟨⟨⟨trivial, trivial⟩, ?_⟩, ?_⟩
  · cases htr : truthy d.ticker with
    | true => simp
    | false =>
      have hdn : d.ticker = none := by
        cases hdt : d.ticker with
        | none => rfl
        | some s =>
          exfalso
          rw [hdt] at htr htk
          simp [truthy] at htr
          subst htr
          exact htk rfl
      simp [hdn]
  · simp only [usecPerDay] at hw ⊢
    omega

theorem sat_processDraft {d₀ : Draft} {S : List Event} {n : Nat}
    (d : Draft) (now : Nat) (h : sat d₀ S) :
    sat d₀ (processDraft now (S, n) d).1 := by
  intro t ht
  have hs := h t ht
  cases hd : d.event_date with
  | none => simpa [processDraft, hd] using hs
  | some t' =>
    cases ha : applyMerge d now t' S with
    | some S' => simpa [processDraft, hd, ha] using satB_after_merge hs ha
    | none =>
      simpa [processDraft, hd, ha] using
        @satB_append d₀ t (newEvent d t' S.length now) S hs

theorem sat_foldl {d₀ : Draft} (now : Nat) :
    ∀ (B : List Draft) (p : List Event × Nat),
      sat d₀ p.1 → sat d₀ (B.foldl (processDraft now) p).1 := by
  intro B
  induction B with
  | nil => intro p h; exact h
  | cons d ds ih =>
    intro p h
    simp only [List.foldl_cons]
    exact ih _ (sat_processDraft d now h)

theorem sat_own {S : List Event} {n : Nat} (d : Draft) (now : Nat)
    (hg : goodDraft d) : sat d (processDraft now (S, n) d).1 := by
  intro t ht
  cases ha : applyMerge d now t S with
  | some S' => simpa [processDraft, ht, ha] using satB_of_applyMerge ha
  | none =>
    have hw : t % usecPerDay ≤ 86399000000 := by
      have := hg.2
      rw [ht] at this
      simpa using this
    have hm := matches_newEvent_self d t S.length now hg.1 hw
    simpa [processDraft, ht, ha] using
      satB_insert ha hm (absorbs_newEvent d t S.length now)

theorem sat_all_after (now : Nat) (B : List Draft) :
    ∀ (p : List Event × Nat) (d : Draft), d ∈ B → goodDraft d →
      sat d (B.foldl (processDraft now) p).1 := by
  induction B with
  | nil => intro p d hd; cases hd
  | cons d₁ ds ih =>
    intro p d hd hg
    simp only [List.foldl_cons]
    rcases List.mem_cons.mp hd with rfl | hd'
    · exact sat_foldl now ds _ (sat_own d now hg)
    · exact ih _ d hd' hg

theorem applyMerge_of_satB {d : Draft} {t now : Nat} :
    ∀ {T : List Event}, satB d t T →
      ∃ T', applyMerge d now t T = some T' ∧
        T'.map stripUpdatedAt = T.map stripUpdatedAt := by
  intro T
  induction T with
  | nil =>
    intro h
    exact absurd h (by simp [satB])
  | cons r rs ih =>
    intro h
    cases hm :
        matchesDraft d.ticker (d.event_type.getD "") (d.title.getD "") t r
        with
    | true =>
      refine ⟨updateExistingEvent r d now :: rs, by simp [applyMerge, hm], ?_⟩
      simp only [satB, hm, if_pos] at h
      rw [update_of_absorbs now h]
      rfl
    | false =>
      simp only [satB, hm, Bool.false_eq_true, if_false] at h
      obtain ⟨T'', h1, h2⟩ := ih h
      refine ⟨r :: T'', by simp [applyMerge, hm, h1], ?_⟩
      simpa using h2

theorem foldl_noop (now2 : Nat) :
    ∀ (B : List Draft) (T : List Event) (n : Nat) (S : List Event),
      (∀ d ∈ B, sat d S) →
      T.map stripUpdatedAt = S.map stripUpdatedAt →
      ((B.foldl (processDraft now2) (T, n)).1).map stripUpdatedAt
        = S.map stripUpdatedAt := by
  intro B
  induction B with
  | nil =>
    intro T n S h he
    simpa using he
  | cons d ds ih =>
    intro T n S h he
    simp only [List.foldl_cons]
    cases hd : d.event_date with
    | none =>
      have hstep : processDraft now2 (T, n) d = (T, n) := by
        simp [processDraft, hd]
      rw [hstep]
      exact ih T n S (fun d' hd' => h d' (List.mem_cons_of_mem _ hd')) he
    | some t =>
      have hsS : satB d t S := h d (List.mem_cons_self _ _) t hd
      have hsT : satB d t T := satB_congr_strip he.symm hsS
      obtain ⟨T', hT1, hT2⟩ := @applyMerge_of_satB d t now2 T hsT
      have hstep : processDraft now2 (T, n) d = (T', n) := by
        simp [processDraft, hd, hT1]
      rw [hstep]
      exact ih T' n S (fun d' hd' => h d' (List.mem_cons_of_mem _ hd'))
        (hT2.trans he)

/-- C3 counterexample draft: an empty-string ticker draft. -/
def c3Draft : Draft :=
  { ticker := some "", event_type := some "macro",
    event_date := some 0, title := some "CPI" }

/-- C3 is falsified at a concrete input: re-ingesting the same one-draft
batch inserts a second copy of the empty-string-ticker row, so the store
after two calls differs from the store after one. -/
theorem c3_counterexample :
    (upsert_events 0 (upsert_events 0 [] [c3Draft]).1 [c3Draft]).1
      ≠ (upsert_events 0 [] [c3Draft]).1 := by
  decide

/-- C3 (amended): for a batch whose drafts all avoid the two dedup blind
spots (ticker not the empty string; event_date time-of-day inside the
match window `[00:00:00.000000, 23:59:59.000000]`), running
`upsert_events` on the batch twice in sequence leaves the same store
content as running it once, up to the `updated_at` refresh the second
pass performs on every merged row. -/
theorem c3_ingest_idempotent (now1 now2 : Nat) (S : List Event)
    (B : List Draft) (hB : ∀ d ∈ B, goodDraft d) :
    ((upsert_events now2 (upsert_events now1 S B).1 B).1).map stripUpdatedAt
      = ((upsert_events now1 S B).1).map stripUpdatedAt := by
  have hsat : ∀ d ∈ B, sat d (upsert_events now1 S B).1 := fun d hd =>
    sat_all_after now1 B (S, 0) d hd (hB d hd)
  exact foldl_noop now2 B (upsert_events now1 S B).1 0
    (upsert_events now1 S B).1 hsat rfl

/-- A regular draft for the C3 witness. -/
def c3GoodDraft : Draft :=
  { ticker := some "NVDA", event_type := some "earnings",
    event_date := some 75600000000, title := some "NVDA Earnings",
    eps_actual := some 5, status := some "completed" }

/-- C3 witness: double ingestion of a concrete regular batch equals
single ingestion up to `updated_at`. -/
theorem c3_ingest_idempotent_witness :
    ((upsert_events 7 (upsert_events 3 [] [c3GoodDraft]).1
      [c3GoodDraft]).1).map stripUpdatedAt
      = ((upsert_events 3 [] [c3GoodDraft]).1).map stripUpdatedAt :=
  c3_ingest_idempotent 3 7 [] [c3GoodDraft] (by decide)

/-! ## C5: the batch return contract -/

/-- Ghost instrumentation of the `upsert_events` loop: the same
per-draft step, additionally classifying each draft as inserted, merged
or skipped.  The function itself returns none of these beyond the
inserted count; this definition only names what the loop does. -/
def countStep (now : Nat) (s : List Event × Nat × Nat × Nat) (d : Draft) :
    List Event × Nat × Nat × Nat :=
  match d.event_date with
  | none => (s.1, s.2.1, s.2.2.1, s.2.2.2 + 1)
  | some t =>
    match applyMerge d now t s.1 with
    | some store' => (store', s.2.1, s.2.2.1 + 1, s.2.2.2)
    | none =>
      (s.1 ++ [newEvent d t s.1.length now], s.2.1 + 1, s.2.2.1, s.2.2.2)

/-- Final store plus (inserted, merged, skipped) for a batch. -/
def batchOutcomes (now : Nat) (store : List Event) (ds : List Draft) :
    List Event × Nat × Nat × Nat :=
  ds.foldl (countStep now) (store, 0, 0, 0)

theorem applyMerge_length {d : Draft} {now t : Nat} {s s' : List Event}
    (h : applyMerge d now t s = some s') : s'.length = s.length := by
  have hm := applyMerge_map_keyProj d now t s s' h
  have := congrArg List.length hm
  simpa using this

theorem upsert_countStep_agree (now : Nat) :
    ∀ (B : List Draft) (S : List Event) (n m k : Nat),
      (B.foldl (processDraft now) (S, n)).1
          = (B.foldl (countStep now) (S, n, m, k)).1 ∧
      (B.foldl (processDraft now) (S, n)).2
          = (B.foldl (countStep now) (S, n, m, k)).2.1 := by
  intro B
  induction B with
  | nil => intro S n m k; exact ⟨rfl, rfl⟩
  | cons d ds ih =>
    intro S n m k
    simp only [List.foldl_cons]
    cases hd : d.event_date with
    | none =>
      simp only [processDraft, countStep, hd]
      exact ih S n m (k + 1)
    | some t =>
      cases ha : applyMerge d now t S with
      | some store' =>
        simp only [processDraft, countStep, hd, ha]
        exact ih store' n (m + 1) k
      | none =>
        simp only [processDraft, countStep, hd, ha]
        exact ih _ (n + 1) m k

theorem upsert_length_count (now : Nat) :
    ∀ (B : List Draft) (S : List Event) (n : Nat),
      (B.foldl (processDraft now) (S, n)).1.length + n
        = S.length + (B.foldl (processDraft now) (S, n)).2 := by
  intro B
  induction B with
  | nil => intro S n; simp
  | cons d ds ih =>
    intro S n
    simp only [List.foldl_cons]
    cases hd : d.event_date with
    | none =>
      simp only [processDraft, hd]
      exact ih S n
    | some t =>
      cases ha : applyMerge d now t S with
      | some store' =>
        simp only [processDraft, hd, ha]
        have := ih store' n
        rw [this, applyMerge_length ha]
      | none =>
        simp only [processDraft, hd, ha]
        have := ih (S ++ [newEvent d t S.length now]) (n + 1)
        simp only [List.length_append, List.length_singleton] at this
        omega

/-- C5 counterexample batch: a single draft with no `event_date`. -/
def c5NoDateDraft : Draft := {}

/-- C5 is falsified at a concrete input: the value `upsert_events`
returns is identical for the empty batch and for a batch with one
skipped (date-less) draft, although their skipped counts differ (0
versus 1) — so the return value cannot be the claimed
`{inserted, merged, skipped}` triple (it is the inserted count alone,
and the log line lumps merged and skipped together). -/
theorem c5_counterexample :
    (upsert_events 0 [] []).2 = (upsert_events 0 [] [c5NoDateDraft]).2 ∧
    (batchOutcomes 0 [] []).2.2.2
      ≠ (batchOutcomes 0 [] [c5NoDateDraft]).2.2.2 := by
  decide

/-- C5 (amended): `upsert_events` returns only the number of inserted
records (its store growth exactly matches that count, and it agrees
with the loop's inserted classification); a draft whose `event_date` is
missing is skipped — it leaves the store and the count untouched — and
never causes the call to fail. -/
theorem c5_return_contract :
    (∀ (now : Nat) (S : List Event) (B : List Draft),
      (upsert_events now S B).1 = (batchOutcomes now S B).1 ∧
      (upsert_events now S B).2 = (batchOutcomes now S B).2.1 ∧
      (upsert_events now S B).1.length
        = S.length + (upsert_events now S B).2)
  ∧ (∀ (now : Nat) (S : List Event) (n : Nat) (d : Draft),
      d.event_date = none → processDraft now (S, n) d = (S, n)) := by
  constructor
  · intro now S B
    obtain ⟨h1, h2⟩ := upsert_countStep_agree now B S 0 0 0
    refine ⟨h1, h2, ?_⟩
    have := upsert_length_count now B S 0
    simpa [upsert_events] using this
  · intro now S n d hd
    simp [processDraft, hd]

/-- C5 witness: the contract evaluated on a concrete store and batch
containing one date-less draft. -/
theorem c5_return_contract_witness :
    ((upsert_events 0 [] [c5NoDateDraft]).1
        = (batchOutcomes 0 [] [c5NoDateDraft]).1 ∧
      (upsert_events 0 [] [c5NoDateDraft]).2
        = (batchOutcomes 0 [] [c5NoDateDraft]).2.1 ∧
      (upsert_events 0 [] [c5NoDateDraft]).1.length
        = List.length ([] : List Event) + (upsert_events 0 [] [c5NoDateDraft]).2) ∧
    processDraft 0 ([], 5) c5NoDateDraft = ([], 5) :=
  ⟨c5_return_contract.1 0 [] [c5NoDateDraft],
   c5_return_contract.2 0 [] 5 c5NoDateDraft rfl⟩

/-! ## C8: job failure isolation -/

/-- `run_fetch_earnings` (`tasks/scheduler.py:65-79`): returns early
when no tickers are tracked; otherwise runs the fetch + `upsert_events`
pipeline, whose outcome is abstracted as an `Except`.  The function
installs no exception handler, so a pipeline failure propagates to the
caller. -/
def run_fetch_earnings (tickers : List String)
    (fetchAndIngest : Except String Nat) : Except String Unit :=
  if tickers.isEmpty then Except.ok ()
  else fetchAndIngest.map (fun _ => ())

/-- `_initial_data_sync` (`main.py:26-38`): await the six category jobs
in order inside a single `try`; the first failure is caught there (the
function still returns) and the remaining jobs are never started.
Returns (number of jobs started, the caught error if any). -/
def initialDataSync : List (Except String Unit) → Nat × Option String
  | [] => (0, none)
  | Except.ok _ :: rest =>
    let r := initialDataSync rest
    (r.1 + 1, r.2)
  | Except.error m :: _ => (1, some m)

/-- C8 is falsified at a concrete input: a failing ingest makes
`run_fetch_earnings` itself fail (nothing is caught at the job's top
level), and in the startup sweep a failure of the first category stops
the sweep after 1 of the 6 category jobs, so the remaining five never
execute. -/
theorem c8_counterexample :
    run_fetch_earnings ["AAPL"] (Except.error "db down")
      = Except.error "db down" ∧
    run_fetch_earnings ["AAPL"] (Except.error "db down") ≠ Except.ok () ∧
    (initialDataSync [Except.error "macro failed", Except.ok (),
      Except.ok (), Except.ok (), Except.ok (), Except.ok ()]).1 = 1 ∧
    (1 : Nat) ≠ 6 :=
  ⟨rfl, fun h => Except.noConfusion h, rfl, by decide⟩

/-- C8 (amended): a failure during the batch ingest call propagates out
of the job function; in the startup sweep the single top-level handler
catches it (the sweep returns instead of crashing the process), but the
categories after the failing one are skipped, while an all-success
sweep runs every category. -/
theorem c8_failure_isolation :
    (∀ (tickers : List String) (ing : Except String Nat) (e : String),
      tickers ≠ [] → ing = Except.error e →
      run_fetch_earnings tickers ing = Except.error e)
  ∧ (∀ (pre post : List (Except String Unit)) (m : String),
      (∀ j ∈ pre, j = Except.ok ()) →
      initialDataSync (pre ++ Except.error m :: post)
        = (pre.length + 1, some m))
  ∧ (∀ jobs : List (Except String Unit),
      (∀ j ∈ jobs, j = Except.ok ()) →
      initialDataSync jobs = (jobs.length, none)) := by
  refine ⟨?_, ?_, ?_⟩
  · intro tickers ing e htk hing
    cases tickers with
    | nil => exact absurd rfl htk
    | cons a as => simp [run_fetch_earnings, hing, Except.map]
  · intro pre
    induction pre with
    | nil =>
      intro post m _
      simp [initialDataSync]
    | cons j js ih =>
      intro post m hok
      have hj := hok j (List.mem_cons_self _ _)
      subst hj
      have ihh := ih post m (fun x hx => hok x (List.mem_cons_of_mem _ hx))
      simp only [List.cons_append, initialDataSync, List.append_eq, ihh,
        List.length_cons]
  · intro jobs
    induction jobs with
    | nil => intro _; rfl
    | cons j js ih =>
      intro hok
      have hj := hok j (List.mem_cons_self _ _)
      subst hj
      have := ih (fun x hx => hok x (List.mem_cons_of_mem _ hx))
      simp [initialDataSync, this]

/-- C8 witness: the amended behaviour on concrete job lists. -/
theorem c8_failure_isolation_witness :
    run_fetch_earnings ["AAPL"] (Except.error "x") = Except.error "x" ∧
    initialDataSync [Except.ok (), Except.error "y", Except.ok ()]
      = (2, some "y") ∧
    initialDataSync [Except.ok (), Except.ok ()] = (2, none) :=
  ⟨c8_failure_isolation.1 ["AAPL"] _ "x" (by simp) rfl,
   by
     have h := c8_failure_isolation.2.1 [Except.ok ()] [Except.ok ()] "y"
       (by simp)
     simpa using h,
   by
     have h := c8_failure_isolation.2.2 [Except.ok (), Except.ok ()]
       (by simp)
     simpa using h⟩

/-! ## C6: the daily summary read model -/

/-- A stable insertion of `a` before the first element it may precede. -/
def insertSorted {α : Type} (le : α → α → Bool) (a : α) :
    List α → List α
  | [] => [a]
  | b :: bs => if le a b then a :: b :: bs else b :: insertSorted le a bs

/-- SQL `ORDER BY` determinised as a stable sort by a total preorder. -/
def sortByLE {α : Type} (le : α → α → Bool) (l : List α) : List α :=
  l.foldr (insertSorted le) []

/-- Lexicographic comparison on codepoints, the text order a database
collation gives these ASCII labels (written out explicitly so proofs
can evaluate it). -/
def charsLt : List Char → List Char → Bool
  | [], [] => false
  | [], _ :: _ => true
  | _ :: _, [] => false
  | a :: as, b :: bs =>
    if a.toNat < b.toNat then true
    else if b.toNat < a.toNat then false
    else charsLt as bs

/-- String version of `charsLt`. -/
def strLtB (x y : String) : Bool := charsLt x.data y.data

/-- The comparator of `ORDER BY importance DESC, event_date ASC`
(`daily_summary.py:61`).  `importance` is a plain string column, so the
DESC order is the lexicographic (byte-wise) order on the label strings,
not the semantic high > medium > low order. -/
def importanceDateLE (a b : Event) : Bool :=
  strLtB b.importance a.importance ||
    (a.importance == b.importance && a.event_date ≤ b.event_date)

/-- The response of `get_daily_summary`; `date` is the start instant of
the UTC day (rendered as a date string in the route). -/
structure DailySummary where
  date : Nat
  total_events : Nat
  high_importance : Nat
  events : List Event
  macro_events : List Event
  portfolio_events : List Event
  deriving Repr, DecidableEq

/-- `get_daily_summary` (`daily_summary.py:36-97`), as a pure function
of the store (the Redis cache-aside wrapper and the response rendering
are dropped): select today's rows, order by (importance DESC,
event_date ASC), partition in order into macro (NULL ticker),
portfolio (ticker in the user's set) and other; combined view is
portfolio then macro; counts are taken over the combined view. -/
def get_daily_summary (now : Nat) (tickers : List String)
    (store : List Event) : DailySummary :=
  let todayStart := (now / usecPerDay) * usecPerDay
  let todayEnd := todayStart + usecPerDay
  let all_events := sortByLE importanceDateLE
    (store.filter (fun e =>
      todayStart ≤ e.event_date && e.event_date < todayEnd))
  let macro_events := all_events.filter (fun e => e.ticker == none)
  let portfolio_events := all_events.filter (fun e =>
    match e.ticker with
    | none => false
    | some tk => tk ∈ tickers)
  let combined := portfolio_events ++ macro_events
  { date := todayStart
    total_events := combined.length
    high_importance := (combined.filter (fun e => e.importance == "high")).length
    events := combined
    macro_events := macro_events
    portfolio_events := portfolio_events }

/-- A high-importance portfolio row dated inside day 0. -/
def c6High : Event :=
  { baseEvent with
    id := 1
    ticker := some "AAPL"
    event_type := "earnings"
    title := "A"
    importance := "high" }

/-- A medium-importance portfolio row dated inside day 0. -/
def c6Med : Event :=
  { baseEvent with
    id := 2
    ticker := some "AAPL"
    event_type := "earnings"
    title := "B"
    importance := "medium" }

/-- C6 shows the code bug at a concrete input: with one high-importance
and one medium-importance portfolio event on the same day,
`ORDER BY importance DESC` on the string column sorts `"medium"` before
`"high"` (lexicographically m > h), so the partition is ordered medium
first, while the spec's order is high before medium before low. -/
theorem c6_importance_order_bug :
    ((get_daily_summary 0 ["AAPL"] [c6High, c6Med]).portfolio_events.map
        Event.importance) = ["medium", "high"] ∧
    c6High.importance = "high" ∧ c6Med.importance = "medium" := by
  decide

/-! ## C7: earnings history math -/

/-- The comparator of `ORDER BY event_date DESC` (`stock.py:118`). -/
def dateDescLE (a b : Event) : Bool := b.event_date ≤ a.event_date

/-- One row of the earnings-history response (`stock.py`,
`EarningsHistoryItem`). -/
structure EarningsItem where
  event_date : Nat
  eps_estimate : Option ℚ
  eps_actual : Option ℚ
  revenue_estimate : Option Int
  revenue_actual : Option Int
  beat : Option Bool
  surprise_percent : Option ℚ
  status : String
  deriving Repr, DecidableEq

/-- Python 3 `round` to an integer: nearest, ties to even (numbers are
modelled as exact rationals; binary floating point is out of scope). -/
def roundHalfEven (x : ℚ) : ℤ :=
  let f := ⌊x⌋
  let r := x - (f : ℚ)
  if r < 1/2 then f
  else if 1/2 < r then f + 1
  else if f % 2 = 0 then f else f + 1

/-- Python `round(x, nd)`. -/
def pyRound (nd : Nat) (x : ℚ) : ℚ :=
  ((roundHalfEven (x * (10 ^ nd : ℚ)) : ℤ) : ℚ) / (10 ^ nd : ℚ)

/-- One iteration of the loop at `stock.py:127-151`: build the history
item and, when estimate and actual are both present, compute `beat`,
compute `surprise_percent` when the estimate is non-zero, and bump the
`beats` / `total_with_data` accumulators. -/
def earningsStep (acc : List EarningsItem × Nat × Nat) (e : Event) :
    List EarningsItem × Nat × Nat :=
  match e.eps_actual, e.eps_estimate with
  | some a, some s =>
    (acc.1 ++ [{ event_date := e.event_date
                 eps_estimate := some s
                 eps_actual := some a
                 revenue_estimate := e.revenue_estimate
                 revenue_actual := e.revenue_actual
                 beat := some (decide (s ≤ a))
                 surprise_percent :=
                   if s ≠ 0 then some (pyRound 2 ((a - s) / |s| * 100))
                   else none
                 status := e.status }],
     acc.2.1 + (if s ≤ a then 1 else 0),
     acc.2.2 + 1)
  | _, _ =>
    (acc.1 ++ [{ event_date := e.event_date
                 eps_estimate := e.eps_estimate
                 eps_actual := e.eps_actual
                 revenue_estimate := e.revenue_estimate
                 revenue_actual := e.revenue_actual
                 beat := none
                 surprise_percent := none
                 status := e.status }],
     acc.2.1, acc.2.2)

/-- The query at `stock.py:109-121`: completed earnings rows of the
ticker, newest first, at most `limit` of them. -/
def selectEarnings (ticker : String) (limit : Nat)
    (store : List Event) : List Event :=
  (sortByLE dateDescLE (store.filter (fun e =>
    e.ticker == some ticker && e.event_type == "earnings" &&
      e.status == "completed"))).take limit

/-- The earnings-history response (`stock.py`,
`EarningsHistoryResponse`). -/
structure EarningsHistoryResp where
  ticker : String
  history : List EarningsItem
  beat_rate : Option ℚ
  total_quarters : Nat
  deriving Repr, DecidableEq

/-- `get_earnings_history` (`stock.py:94-164`) as a pure function of
the store (cache-aside wrapper dropped; the route's upper-casing of the
ticker happens before this point). -/
def get_earnings_history (ticker : String) (limit : Nat)
    (store : List Event) : EarningsHistoryResp :=
  let events := selectEarnings ticker limit store
  let lp := events.foldl earningsStep ([], 0, 0)
  { ticker := ticker
    history := lp.1
    beat_rate :=
      if 0 < lp.2.2 then
        some (pyRound 1 ((lp.2.1 : ℚ) / (lp.2.2 : ℚ) * 100))
      else none
    total_quarters := lp.1.length }

/-- The spec's per-record formulas, written from the spec's words, to
be compared with the loop: `beat` = actual ≥ estimate when both present
else absent; `surprise_percent` = round((actual − estimate) /
|estimate| × 100, 2) when both present and estimate ≠ 0, else absent. -/
def specEarningsItem (e : Event) : EarningsItem :=
  { event_date := e.event_date
    eps_estimate := e.eps_estimate
    eps_actual := e.eps_actual
    revenue_estimate := e.revenue_estimate
    revenue_actual := e.revenue_actual
    beat :=
      match e.eps_actual, e.eps_estimate with
      | some a, some s => some (decide (s ≤ a))
      | _, _ => none
    surprise_percent :=
      match e.eps_actual, e.eps_estimate with
      | some a, some s =>
        if s ≠ 0 then some (pyRound 2 ((a - s) / |s| * 100)) else none
      | _, _ => none
    status := e.status }

/-- Both estimate and actual present. -/
def bothPresent (e : Event) : Bool :=
  e.eps_actual.isSome && e.eps_estimate.isSome

/-- Both present and actual beats (≥) estimate. -/
def isBeat (e : Event) : Bool :=
  match e.eps_actual, e.eps_estimate with
  | some a, some s => decide (s ≤ a)
  | _, _ => false

theorem earningsLoop_char :
    ∀ (l : List Event) (acc : List EarningsItem × Nat × Nat),
      l.foldl earningsStep acc =
        (acc.1 ++ l.map specEarningsItem,
         acc.2.1 + (l.filter isBeat).length,
         acc.2.2 + (l.filter bothPresent).length) := by
  intro l
  induction l with
  | nil => intro acc; simp
  | cons e es ih =>
    intro acc
    simp only [List.foldl_cons]
    rw [ih]
    cases ha : e.eps_actual with
    | none =>
      simp [earningsStep, specEarningsItem, isBeat, bothPresent, ha,
        List.filter_cons]
    | some a =>
      cases hs : e.eps_estimate with
      | none =>
        simp [earningsStep, specEarningsItem, isBeat, bothPresent, ha, hs,
          List.filter_cons]
      | some s =>
        by_cases hb : s ≤ a
        · simp [earningsStep, specEarningsItem, isBeat, bothPresent, ha, hs,
            hb, List.filter_cons]
          omega
        · simp [earningsStep, specEarningsItem, isBeat, bothPresent, ha, hs,
            hb, List.filter_cons]
          omega

/-- Completed earnings row with estimate 2.00 and actual 2.40. -/
def c7Beat : Event :=
  { baseEvent with
    id := 1
    ticker := some "AAPL"
    event_type := "earnings"
    status := "completed"
    title := "Q1"
    event_date := 20
    eps_estimate := some 2
    eps_actual := some (12 / 5) }

/-- Completed earnings row with an estimate but no actual. -/
def c7NoActual : Event :=
  { baseEvent with
    id := 2
    ticker := some "AAPL"
    event_type := "earnings"
    status := "completed"
    title := "Q0"
    event_date := 10
    eps_estimate := some 3 }

/-- C7: each returned history row carries the spec's `beat` and
`surprise_percent` formulas, `beat_rate` is
round(beats / records-with-both-values × 100, 1) over the selected rows
when that denominator is non-zero and absent otherwise, and
`total_quarters` is the history length; concretely, estimate 2.00 /
actual 2.40 gives beat = true and surprise_percent = 20.0, and a
two-row history with one undefined record gives beat_rate 100.0 with
total_quarters 2. -/
theorem c7_earnings_history_math :
    (∀ (ticker : String) (limit : Nat) (store : List Event),
      (get_earnings_history ticker limit store).history
          = (selectEarnings ticker limit store).map specEarningsItem ∧
      (get_earnings_history ticker limit store).beat_rate
          = (if 0 <
                ((selectEarnings ticker limit store).filter bothPresent).length
             then some (pyRound 1
               ((((selectEarnings ticker limit store).filter isBeat).length : ℚ)
                 / (((selectEarnings ticker limit store).filter
                      bothPresent).length : ℚ) * 100))
             else none) ∧
      (get_earnings_history ticker limit store).total_quarters
          = (get_earnings_history ticker limit store).history.length)
  ∧ (specEarningsItem c7Beat).beat = some true
  ∧ (specEarningsItem c7Beat).surprise_percent = some 20
  ∧ (get_earnings_history "AAPL" 8 [c7Beat, c7NoActual]).beat_rate = some 100
  ∧ (get_earnings_history "AAPL" 8 [c7Beat, c7NoActual]).total_quarters = 2 := by
  have hle : (2 : ℚ) ≤ 12 / 5 := by norm_num
  have hr20 : pyRound 2 (20 : ℚ) = 20 := by
    unfold pyRound roundHalfEven
    norm_num
  have hr100 : pyRound 1 (100 : ℚ) = 100 := by
    unfold pyRound roundHalfEven
    norm_num
  refine ⟨?_, ?_, ?_, ?_, ?_⟩
  · intro ticker limit store
    simp only [get_earnings_history, earningsLoop_char, List.nil_append,
      Nat.zero_add]
    exact ⟨trivial, trivial, trivial⟩
  · simp [specEarningsItem, c7Beat, hle]
  · simp [specEarningsItem, c7Beat]
    have harg : ((12 : ℚ) / 5 - 2) / 2 * 100 = 20 := by norm_num
    rw [harg, hr20]
  · simp [get_earnings_history, selectEarnings, sortByLE, insertSorted,
      dateDescLE, earningsStep, c7Beat, c7NoActual, baseEvent, hle, hr100]
  · simp [get_earnings_history, selectEarnings, sortByLE, insertSorted,
      dateDescLE, earningsStep, c7Beat, c7NoActual, baseEvent, hle]

end StockPulse
